import Mathlib

/-!
Verification of the statistical core of `src/backend/server.py`:
the diagnostic-accuracy estimator `calculate_diagnostic_stats` (with its
inner Wilson-score helper `wilson_ci`) and the inter-rater agreement
estimator `calculate_cohens_kappa`.

Modelling conventions.
* Python/NumPy double-precision arithmetic is modelled by exact real
  (`ℝ`) arithmetic; the contingency-table computations of the kappa
  estimator are exact and are modelled over `ℚ`.
* The scipy quantile `z = stats.norm.ppf(1 - alpha/2)` is an external
  collaborator; it enters every definition as a real parameter `z`.
  On the admissible confidence range `[0.5, 0.99]` the quantile is
  nonnegative (hypotheses `0 ≤ z`) and strictly increasing in the
  confidence level (so `c₁ < c₂` is modelled by `z₁ < z₂`).
* Raised Python exceptions are modelled by `Option`/`Except` error
  values.
-/

namespace Backend

/-- One metric entry of the result dict built by
`calculate_diagnostic_stats`: the fields `value`, `ci_lower`,
`ci_upper` (server.py lines 72-96). -/
structure PropEst where
  value : ℝ
  ci_lower : ℝ
  ci_upper : ℝ

/-- The result dict of `calculate_diagnostic_stats` (server.py lines
71-104): five `PropEst` metrics plus the scalar `prevalence`.  The
echoed `confusion_matrix` entry merely repeats the inputs and carries
no computation, so it is not modelled. -/
structure DiagStats where
  sensitivity : PropEst
  specificity : PropEst
  ppv : PropEst
  npv : PropEst
  accuracy : PropEst
  prevalence : ℝ

/-- The inner helper `wilson_ci(x, n)` of `calculate_diagnostic_stats`
(server.py lines 55-62), transcribed clause by clause; `z` is the
scipy normal quantile computed on line 53. -/
noncomputable def wilson_ci (z : ℝ) (x n : ℕ) : ℝ × ℝ :=
  if n = 0 then (0, 0)
  else
    let p : ℝ := (x : ℝ) / (n : ℝ)
    let denominator : ℝ := 1 + z ^ 2 / (n : ℝ)
    let centre : ℝ := (p + z ^ 2 / (2 * (n : ℝ))) / denominator
    let margin : ℝ :=
      z * Real.sqrt ((p * (1 - p) + z ^ 2 / (4 * (n : ℝ))) / (n : ℝ)) / denominator
    (max 0 (centre - margin), min 1 (centre + margin))

/-- The function `calculate_diagnostic_stats(TP, TN, FP, FN,
confidence_level)` of server.py lines 35-104.  The `ValueError("No data
provided")` raised when `total == 0` is modelled by `none`; the scipy
quantile of lines 52-53 is the parameter `z`. -/
noncomputable def calculate_diagnostic_stats (TP TN FP FN : ℕ) (z : ℝ) : Option DiagStats :=
  if TP + TN + FP + FN = 0 then none
  else
    let total : ℕ := TP + TN + FP + FN
    let sensitivity : ℝ := if 0 < TP + FN then (TP : ℝ) / ((TP + FN : ℕ) : ℝ) else 0
    let specificity : ℝ := if 0 < TN + FP then (TN : ℝ) / ((TN + FP : ℕ) : ℝ) else 0
    let ppv : ℝ := if 0 < TP + FP then (TP : ℝ) / ((TP + FP : ℕ) : ℝ) else 0
    let npv : ℝ := if 0 < TN + FN then (TN : ℝ) / ((TN + FN : ℕ) : ℝ) else 0
    let accuracy : ℝ := ((TP + TN : ℕ) : ℝ) / (total : ℝ)
    let prevalence : ℝ := ((TP + FN : ℕ) : ℝ) / (total : ℝ)
    let sens_ci := wilson_ci z TP (TP + FN)
    let spec_ci := wilson_ci z TN (TN + FP)
    let ppv_ci := wilson_ci z TP (TP + FP)
    let npv_ci := wilson_ci z TN (TN + FN)
    let acc_ci := wilson_ci z (TP + TN) total
    some
      { sensitivity := ⟨sensitivity, sens_ci.1, sens_ci.2⟩
        specificity := ⟨specificity, spec_ci.1, spec_ci.2⟩
        ppv := ⟨ppv, ppv_ci.1, ppv_ci.2⟩
        npv := ⟨npv, npv_ci.1, npv_ci.2⟩
        accuracy := ⟨accuracy, acc_ci.1, acc_ci.2⟩
        prevalence := prevalence }

/-- Wilson centre `(p + z²/(2n))/denominator` as a function of the
real data `z`, `nr = n`, `p = x/n`; names the corresponding
subexpression of `wilson_ci`. -/
noncomputable def wilsonCentre (z nr p : ℝ) : ℝ :=
  (p + z ^ 2 / (2 * nr)) / (1 + z ^ 2 / nr)

/-- Wilson margin `z·sqrt((p(1-p) + z²/(4n))/n)/denominator` as a
function of the real data; names the corresponding subexpression of
`wilson_ci`. -/
noncomputable def wilsonMargin (z nr p : ℝ) : ℝ :=
  z * Real.sqrt ((p * (1 - p) + z ^ 2 / (4 * nr)) / nr) / (1 + z ^ 2 / nr)

lemma wilson_ci_zero_trials (z : ℝ) (x : ℕ) : wilson_ci z x 0 = (0, 0) := by
  simp [wilson_ci]

lemma wilson_ci_of_pos (z : ℝ) (x n : ℕ) (hn : n ≠ 0) :
    wilson_ci z x n =
      (max 0 (wilsonCentre z (n : ℝ) ((x : ℝ) / (n : ℝ)) -
         wilsonMargin z (n : ℝ) ((x : ℝ) / (n : ℝ))),
       min 1 (wilsonCentre z (n : ℝ) ((x : ℝ) / (n : ℝ)) +
         wilsonMargin z (n : ℝ) ((x : ℝ) / (n : ℝ)))) := by
  simp [wilson_ci, hn, wilsonCentre, wilsonMargin]

lemma wilson_denom_pos (z nr : ℝ) (hnr : 0 < nr) : 0 < 1 + z ^ 2 / nr := by
  have h : 0 ≤ z ^ 2 / nr := div_nonneg (sq_nonneg z) hnr.le
  linarith

lemma wilsonMargin_nonneg (z nr p : ℝ) (hz : 0 ≤ z) (hnr : 0 < nr) :
    0 ≤ wilsonMargin z nr p :=
  div_nonneg (mul_nonneg hz (Real.sqrt_nonneg _)) (wilson_denom_pos z nr hnr).le

/-- Key estimate behind the value-within-interval invariant: the
centre-to-value offset `z²/(2n)·(1-2p)` (in either sign) is dominated
by the square-root factor of the Wilson margin. -/
lemma wilson_key (z nr p : ℝ) (hz : 0 ≤ z) (hnr : 0 < nr) (hp0 : 0 ≤ p) (hp1 : p ≤ 1) :
    z ^ 2 / (2 * nr) * (1 - 2 * p) ≤
      z * Real.sqrt ((p * (1 - p) + z ^ 2 / (4 * nr)) / nr) ∧
    z ^ 2 / (2 * nr) * (2 * p - 1) ≤
      z * Real.sqrt ((p * (1 - p) + z ^ 2 / (4 * nr)) / nr) := by
  have hpp : 0 ≤ p * (1 - p) := mul_nonneg hp0 (by linarith)
  have hid : (p * (1 - p) + z ^ 2 / (4 * nr)) / nr - (z * (1 - 2 * p) / (2 * nr)) ^ 2 =
      p * (1 - p) * (nr + z ^ 2) / nr ^ 2 := by
    field_simp
    ring
  have hnn : 0 ≤ p * (1 - p) * (nr + z ^ 2) / nr ^ 2 :=
    div_nonneg (mul_nonneg hpp (by nlinarith [sq_nonneg z])) (sq_nonneg nr)
  have hB : (z * (1 - 2 * p) / (2 * nr)) ^ 2 ≤ (p * (1 - p) + z ^ 2 / (4 * nr)) / nr := by
    linarith
  have h2 : |z * (1 - 2 * p) / (2 * nr)| ≤
      Real.sqrt ((p * (1 - p) + z ^ 2 / (4 * nr)) / nr) := by
    have := Real.sqrt_le_sqrt hB
    rwa [Real.sqrt_sq_eq_abs] at this
  have h3 : z * |z * (1 - 2 * p) / (2 * nr)| ≤
      z * Real.sqrt ((p * (1 - p) + z ^ 2 / (4 * nr)) / nr) :=
    mul_le_mul_of_nonneg_left h2 hz
  have habs : z * |z * (1 - 2 * p) / (2 * nr)| = |z ^ 2 * (1 - 2 * p) / (2 * nr)| := by
    have h1 : z * (z * (1 - 2 * p) / (2 * nr)) = z ^ 2 * (1 - 2 * p) / (2 * nr) := by ring
    rw [← h1, abs_mul, abs_of_nonneg hz]
  constructor
  · refine le_trans ?_ h3
    rw [habs]
    calc z ^ 2 / (2 * nr) * (1 - 2 * p) = z ^ 2 * (1 - 2 * p) / (2 * nr) := by ring
    _ ≤ |z ^ 2 * (1 - 2 * p) / (2 * nr)| := le_abs_self _
  · refine le_trans ?_ h3
    rw [habs]
    calc z ^ 2 / (2 * nr) * (2 * p - 1) = -(z ^ 2 * (1 - 2 * p) / (2 * nr)) := by ring
    _ ≤ |z ^ 2 * (1 - 2 * p) / (2 * nr)| := neg_le_abs _

/-- The point estimate `p` lies between Wilson centre minus margin and
centre plus margin. -/
lemma wilson_value_between (z nr p : ℝ) (hz : 0 ≤ z) (hnr : 0 < nr)
    (hp0 : 0 ≤ p) (hp1 : p ≤ 1) :
    wilsonCentre z nr p - wilsonMargin z nr p ≤ p ∧
    p ≤ wilsonCentre z nr p + wilsonMargin z nr p := by
  have hD : 0 < 1 + z ^ 2 / nr := wilson_denom_pos z nr hnr
  obtain ⟨k1, k2⟩ := wilson_key z nr p hz hnr hp0 hp1
  have e1 : z ^ 2 / (2 * nr) * (1 - 2 * p) = z ^ 2 / (2 * nr) - p * (z ^ 2 / nr) := by ring
  have e2 : z ^ 2 / (2 * nr) * (2 * p - 1) = p * (z ^ 2 / nr) - z ^ 2 / (2 * nr) := by ring
  have e3 : p * (1 + z ^ 2 / nr) = p + p * (z ^ 2 / nr) := by ring
  rw [e1] at k1
  rw [e2] at k2
  constructor
  · rw [wilsonCentre, wilsonMargin, div_sub_div_same, div_le_iff₀ hD]
    linarith [k1, e3]
  · rw [wilsonCentre, wilsonMargin, div_add_div_same, le_div_iff₀ hD]
    linarith [k2, e3]

/-- The unclamped Wilson lower bound is already nonnegative (it
vanishes exactly at `p = 0`), so the `max 0` clamp never cuts below the
point estimate. -/
lemma wilson_lower_nonneg (z nr p : ℝ) (hz : 0 ≤ z) (hnr : 0 < nr)
    (hp0 : 0 ≤ p) (hp1 : p ≤ 1) :
    0 ≤ wilsonCentre z nr p - wilsonMargin z nr p := by
  have hD : 0 < 1 + z ^ 2 / nr := wilson_denom_pos z nr hnr
  have hA : 0 ≤ (p * (1 - p) + z ^ 2 / (4 * nr)) / nr := by
    have hpp : 0 ≤ p * (1 - p) := mul_nonneg hp0 (by linarith)
    have : 0 ≤ z ^ 2 / (4 * nr) := div_nonneg (sq_nonneg z) (by linarith)
    exact div_nonneg (by linarith) hnr.le
  have hnum : z * Real.sqrt ((p * (1 - p) + z ^ 2 / (4 * nr)) / nr) ≤ p + z ^ 2 / (2 * nr) := by
    have hsq : (z * Real.sqrt ((p * (1 - p) + z ^ 2 / (4 * nr)) / nr)) ^ 2 ≤
        (p + z ^ 2 / (2 * nr)) ^ 2 := by
      rw [mul_pow, Real.sq_sqrt hA]
      have hexp : (p + z ^ 2 / (2 * nr)) ^ 2 -
          z ^ 2 * ((p * (1 - p) + z ^ 2 / (4 * nr)) / nr) =
          p ^ 2 * (1 + z ^ 2 / nr) := by
        field_simp
        ring
      nlinarith [mul_nonneg (sq_nonneg p) hD.le]
    have hc : 0 ≤ p + z ^ 2 / (2 * nr) := by
      have : 0 ≤ z ^ 2 / (2 * nr) := div_nonneg (sq_nonneg z) (by linarith)
      linarith
    have hm : 0 ≤ z * Real.sqrt ((p * (1 - p) + z ^ 2 / (4 * nr)) / nr) :=
      mul_nonneg hz (Real.sqrt_nonneg _)
    nlinarith [hsq, hc, hm]
  rw [wilsonCentre, wilsonMargin, sub_nonneg]
  exact div_le_div_of_nonneg_right hnum hD.le

/-- The unclamped Wilson upper bound is already at most one (it equals
one exactly at `p = 1`), so the `min 1` clamp never cuts below the
point estimate either. -/
lemma wilson_upper_le_one (z nr p : ℝ) (hz : 0 ≤ z) (hnr : 0 < nr)
    (hp0 : 0 ≤ p) (hp1 : p ≤ 1) :
    wilsonCentre z nr p + wilsonMargin z nr p ≤ 1 := by
  have hD : 0 < 1 + z ^ 2 / nr := wilson_denom_pos z nr hnr
  have hA : 0 ≤ (p * (1 - p) + z ^ 2 / (4 * nr)) / nr := by
    have hpp : 0 ≤ p * (1 - p) := mul_nonneg hp0 (by linarith)
    have : 0 ≤ z ^ 2 / (4 * nr) := div_nonneg (sq_nonneg z) (by linarith)
    exact div_nonneg (by linarith) hnr.le
  have hnum : z * Real.sqrt ((p * (1 - p) + z ^ 2 / (4 * nr)) / nr) ≤
      (1 - p) + z ^ 2 / (2 * nr) := by
    have hsq : (z * Real.sqrt ((p * (1 - p) + z ^ 2 / (4 * nr)) / nr)) ^ 2 ≤
        ((1 - p) + z ^ 2 / (2 * nr)) ^ 2 := by
      rw [mul_pow, Real.sq_sqrt hA]
      have hexp : ((1 - p) + z ^ 2 / (2 * nr)) ^ 2 -
          z ^ 2 * ((p * (1 - p) + z ^ 2 / (4 * nr)) / nr) =
          (1 - p) ^ 2 * (1 + z ^ 2 / nr) := by
        field_simp
        ring
      nlinarith [mul_nonneg (sq_nonneg (1 - p)) hD.le]
    have hc : 0 ≤ (1 - p) + z ^ 2 / (2 * nr) := by
      have : 0 ≤ z ^ 2 / (2 * nr) := div_nonneg (sq_nonneg z) (by linarith)
      linarith
    have hm : 0 ≤ z * Real.sqrt ((p * (1 - p) + z ^ 2 / (4 * nr)) / nr) :=
      mul_nonneg hz (Real.sqrt_nonneg _)
    nlinarith [hsq, hc, hm]
  rw [wilsonCentre, wilsonMargin, div_add_div_same, div_le_one hD]
  have e : z ^ 2 / nr = z ^ 2 / (2 * nr) + z ^ 2 / (2 * nr) := by ring
  linarith [hnum, e]

/-- With positive trials the two clamps of `wilson_ci` are inactive:
the interval is exactly centre minus/plus margin. -/
lemma wilson_ci_eq_pair (z : ℝ) (x n : ℕ) (hz : 0 ≤ z) (hn : n ≠ 0) (hx : x ≤ n) :
    wilson_ci z x n =
      (wilsonCentre z (n : ℝ) ((x : ℝ) / (n : ℝ)) -
         wilsonMargin z (n : ℝ) ((x : ℝ) / (n : ℝ)),
       wilsonCentre z (n : ℝ) ((x : ℝ) / (n : ℝ)) +
         wilsonMargin z (n : ℝ) ((x : ℝ) / (n : ℝ))) := by
  have hnr : (0 : ℝ) < (n : ℝ) := by exact_mod_cast Nat.pos_of_ne_zero hn
  have hp0 : (0 : ℝ) ≤ (x : ℝ) / (n : ℝ) := div_nonneg (Nat.cast_nonneg x) hnr.le
  have hp1 : (x : ℝ) / (n : ℝ) ≤ 1 := by
    rw [div_le_one hnr]
    exact_mod_cast hx
  rw [wilson_ci_of_pos z x n hn]
  rw [max_eq_right (wilson_lower_nonneg z (n : ℝ) _ hz hnr hp0 hp1),
    min_eq_right (wilson_upper_le_one z (n : ℝ) _ hz hnr hp0 hp1)]

/-- Closed form of the squared Wilson margin, as a rational function of
`z²`. -/
lemma wilsonMargin_sq (z nr p : ℝ) (_hz : 0 ≤ z) (hnr : 0 < nr)
    (hp0 : 0 ≤ p) (hp1 : p ≤ 1) :
    wilsonMargin z nr p ^ 2 =
      z ^ 2 * (4 * nr * (p * (1 - p)) + z ^ 2) / (4 * (nr + z ^ 2) ^ 2) := by
  have hA : 0 ≤ (p * (1 - p) + z ^ 2 / (4 * nr)) / nr := by
    have hpp : 0 ≤ p * (1 - p) := mul_nonneg hp0 (by linarith)
    have : 0 ≤ z ^ 2 / (4 * nr) := div_nonneg (sq_nonneg z) (by linarith)
    exact div_nonneg (by linarith) hnr.le
  have hns : nr + z ^ 2 ≠ 0 := by nlinarith [sq_nonneg z]
  have hD : (1 + z ^ 2 / nr) ≠ 0 := (wilson_denom_pos z nr hnr).ne'
  rw [wilsonMargin, div_pow, mul_pow, Real.sq_sqrt hA]
  field_simp
  ring

/-- The Wilson margin is strictly increasing in the quantile `z` on
`z ≥ 0` (for positive trials), which is what makes a higher confidence
level strictly widen the interval. -/
lemma wilsonMargin_strictMono (nr p : ℝ) (hnr : 0 < nr) (hp0 : 0 ≤ p) (hp1 : p ≤ 1)
    {z1 z2 : ℝ} (hz1 : 0 ≤ z1) (h12 : z1 < z2) :
    wilsonMargin z1 nr p < wilsonMargin z2 nr p := by
  have hz2 : 0 ≤ z2 := le_trans hz1 h12.le
  have ht : z1 ^ 2 < z2 ^ 2 := by nlinarith
  have ha0 : 0 ≤ p * (1 - p) := mul_nonneg hp0 (by linarith)
  have ha4 : p * (1 - p) ≤ 1 / 4 := by nlinarith [sq_nonneg (1 - 2 * p)]
  have hpos1 : (0 : ℝ) < 4 * (nr + z1 ^ 2) ^ 2 := by
    have : 0 < nr + z1 ^ 2 := by nlinarith [sq_nonneg z1]
    positivity
  have hpos2 : (0 : ℝ) < 4 * (nr + z2 ^ 2) ^ 2 := by
    have : 0 < nr + z2 ^ 2 := by nlinarith [sq_nonneg z2]
    positivity
  have hsq : wilsonMargin z1 nr p ^ 2 < wilsonMargin z2 nr p ^ 2 := by
    rw [wilsonMargin_sq z1 nr p hz1 hnr hp0 hp1, wilsonMargin_sq z2 nr p hz2 hnr hp0 hp1,
      div_lt_div_iff₀ hpos1 hpos2]
    have hF : z2 ^ 2 * (4 * nr * (p * (1 - p)) + z2 ^ 2) * (nr + z1 ^ 2) ^ 2 -
        z1 ^ 2 * (4 * nr * (p * (1 - p)) + z1 ^ 2) * (nr + z2 ^ 2) ^ 2 =
        (z2 ^ 2 - z1 ^ 2) * nr *
          (4 * nr ^ 2 * (p * (1 - p)) + nr * (z1 ^ 2 + z2 ^ 2) +
            2 * z1 ^ 2 * z2 ^ 2 * (1 - 2 * (p * (1 - p)))) := by
      ring
    have hbr : 0 < 4 * nr ^ 2 * (p * (1 - p)) + nr * (z1 ^ 2 + z2 ^ 2) +
        2 * z1 ^ 2 * z2 ^ 2 * (1 - 2 * (p * (1 - p))) := by
      have h1 : 0 ≤ 4 * nr ^ 2 * (p * (1 - p)) :=
        mul_nonneg (by positivity) ha0
      have h2 : 0 < nr * (z1 ^ 2 + z2 ^ 2) :=
        mul_pos hnr (by nlinarith [sq_nonneg z1])
      have h3 : 0 ≤ 2 * z1 ^ 2 * z2 ^ 2 * (1 - 2 * (p * (1 - p))) :=
        mul_nonneg (by positivity) (by linarith)
      linarith
    have hFpos : 0 < (z2 ^ 2 - z1 ^ 2) * nr *
        (4 * nr ^ 2 * (p * (1 - p)) + nr * (z1 ^ 2 + z2 ^ 2) +
          2 * z1 ^ 2 * z2 ^ 2 * (1 - 2 * (p * (1 - p)))) :=
      mul_pos (mul_pos (by linarith) hnr) hbr
    nlinarith [hF, hFpos]
  have hm1 : 0 ≤ wilsonMargin z1 nr p := wilsonMargin_nonneg z1 nr p hz1 hnr
  have hm2 : 0 ≤ wilsonMargin z2 nr p := wilsonMargin_nonneg z2 nr p hz2 hnr
  nlinarith [hsq, hm1, hm2]

/-- With positive trials, the width of the clamped Wilson interval is
exactly twice the margin. -/
lemma wilson_width (z : ℝ) (x n : ℕ) (hz : 0 ≤ z) (hn : n ≠ 0) (hx : x ≤ n) :
    (wilson_ci z x n).2 - (wilson_ci z x n).1 =
      2 * wilsonMargin z (n : ℝ) ((x : ℝ) / (n : ℝ)) := by
  rw [wilson_ci_eq_pair z x n hz hn hx]
  ring

/-- Strict growth of the clamped interval width in `z`, for positive
trials. -/
lemma wilson_width_lt (x n : ℕ) (z1 z2 : ℝ) (hz1 : 0 ≤ z1) (h12 : z1 < z2)
    (hn : n ≠ 0) (hx : x ≤ n) :
    (wilson_ci z1 x n).2 - (wilson_ci z1 x n).1 <
      (wilson_ci z2 x n).2 - (wilson_ci z2 x n).1 := by
  have hnr : (0 : ℝ) < (n : ℝ) := by exact_mod_cast Nat.pos_of_ne_zero hn
  have hp0 : (0 : ℝ) ≤ (x : ℝ) / (n : ℝ) := div_nonneg (Nat.cast_nonneg x) hnr.le
  have hp1 : (x : ℝ) / (n : ℝ) ≤ 1 := by
    rw [div_le_one hnr]
    exact_mod_cast hx
  rw [wilson_width z1 x n hz1 hn hx, wilson_width z2 x n (le_trans hz1 h12.le) hn hx]
  have := wilsonMargin_strictMono (n : ℝ) ((x : ℝ) / (n : ℝ)) hnr hp0 hp1 hz1 h12
  linarith

/-- Closed form of `wilson_ci` at full successes `x = n`: the upper
clamp is tight. -/
lemma wilson_ci_at_full (z : ℝ) (n : ℕ) (hz : 0 ≤ z) (hn : n ≠ 0) :
    wilson_ci z n n = ((n : ℝ) / ((n : ℝ) + z ^ 2), 1) := by
  have hnr : (0 : ℝ) < (n : ℝ) := by exact_mod_cast Nat.pos_of_ne_zero hn
  have hns : (n : ℝ) + z ^ 2 ≠ 0 := by nlinarith [sq_nonneg z]
  rw [wilson_ci_eq_pair z n n hz hn le_rfl, div_self hnr.ne']
  have hs : Real.sqrt ((1 * (1 - 1) + z ^ 2 / (4 * (n : ℝ))) / (n : ℝ)) = z / (2 * (n : ℝ)) := by
    have h1 : (1 * (1 - (1 : ℝ)) + z ^ 2 / (4 * (n : ℝ))) / (n : ℝ) = (z / (2 * (n : ℝ))) ^ 2 := by
      rw [div_pow, show ((2 : ℝ) * (n : ℝ)) ^ 2 = (4 * (n : ℝ)) * (n : ℝ) by ring, ← div_div]
      ring_nf
    rw [h1, Real.sqrt_sq (by positivity)]
  rw [wilsonCentre, wilsonMargin, hs, Prod.mk.injEq]
  constructor
  · field_simp
    ring
  · field_simp
    ring

/-- Closed form of `wilson_ci` at zero successes: the lower clamp is
tight. -/
lemma wilson_ci_at_zero (z : ℝ) (n : ℕ) (hz : 0 ≤ z) (hn : n ≠ 0) :
    wilson_ci z 0 n = (0, z ^ 2 / ((n : ℝ) + z ^ 2)) := by
  have hnr : (0 : ℝ) < (n : ℝ) := by exact_mod_cast Nat.pos_of_ne_zero hn
  have hns : (n : ℝ) + z ^ 2 ≠ 0 := by nlinarith [sq_nonneg z]
  rw [wilson_ci_eq_pair z 0 n hz hn (Nat.zero_le n)]
  rw [Nat.cast_zero, zero_div]
  have hs : Real.sqrt ((0 * (1 - 0) + z ^ 2 / (4 * (n : ℝ))) / (n : ℝ)) = z / (2 * (n : ℝ)) := by
    have h1 : (0 * (1 - (0 : ℝ)) + z ^ 2 / (4 * (n : ℝ))) / (n : ℝ) = (z / (2 * (n : ℝ))) ^ 2 := by
      rw [div_pow, show ((2 : ℝ) * (n : ℝ)) ^ 2 = (4 * (n : ℝ)) * (n : ℝ) by ring, ← div_div]
      ring_nf
    rw [h1, Real.sqrt_sq (by positivity)]
  rw [wilsonCentre, wilsonMargin, hs, Prod.mk.injEq]
  constructor
  · field_simp
    ring
  · field_simp
    ring

/-- Explicit form of the `total ≠ 0` branch of
`calculate_diagnostic_stats`. -/
lemma calc_diag_eq_some (TP TN FP FN : ℕ) (z : ℝ) (h : TP + TN + FP + FN ≠ 0) :
    calculate_diagnostic_stats TP TN FP FN z = some
      { sensitivity := ⟨if 0 < TP + FN then (TP : ℝ) / ((TP + FN : ℕ) : ℝ) else 0,
          (wilson_ci z TP (TP + FN)).1, (wilson_ci z TP (TP + FN)).2⟩
        specificity := ⟨if 0 < TN + FP then (TN : ℝ) / ((TN + FP : ℕ) : ℝ) else 0,
          (wilson_ci z TN (TN + FP)).1, (wilson_ci z TN (TN + FP)).2⟩
        ppv := ⟨if 0 < TP + FP then (TP : ℝ) / ((TP + FP : ℕ) : ℝ) else 0,
          (wilson_ci z TP (TP + FP)).1, (wilson_ci z TP (TP + FP)).2⟩
        npv := ⟨if 0 < TN + FN then (TN : ℝ) / ((TN + FN : ℕ) : ℝ) else 0,
          (wilson_ci z TN (TN + FN)).1, (wilson_ci z TN (TN + FN)).2⟩
        accuracy := ⟨((TP + TN : ℕ) : ℝ) / ((TP + TN + FP + FN : ℕ) : ℝ),
          (wilson_ci z (TP + TN) (TP + TN + FP + FN)).1,
          (wilson_ci z (TP + TN) (TP + TN + FP + FN)).2⟩
        prevalence := ((TP + FN : ℕ) : ℝ) / ((TP + TN + FP + FN : ℕ) : ℝ) } := by
  unfold calculate_diagnostic_stats
  rw [if_neg h]

/-- Bounds shared by each of the five metric entries: the fallback
point estimate is a proportion in `[0, 1]` and lies inside the clamped
Wilson interval for its `(successes, trials)` pair. -/
lemma diag_component (z : ℝ) (x n : ℕ) (hz : 0 ≤ z) (hxn : x ≤ n) :
    (0 ≤ (if 0 < n then (x : ℝ) / ((n : ℕ) : ℝ) else 0)) ∧
    ((if 0 < n then (x : ℝ) / ((n : ℕ) : ℝ) else 0) ≤ 1) ∧
    ((wilson_ci z x n).1 ≤ (if 0 < n then (x : ℝ) / ((n : ℕ) : ℝ) else 0)) ∧
    ((if 0 < n then (x : ℝ) / ((n : ℕ) : ℝ) else 0) ≤ (wilson_ci z x n).2) := by
  by_cases hn : n = 0
  · subst hn
    simp [wilson_ci_zero_trials]
  · have hnr : (0 : ℝ) < (n : ℝ) := by exact_mod_cast Nat.pos_of_ne_zero hn
    have hp0 : (0 : ℝ) ≤ (x : ℝ) / (n : ℝ) := div_nonneg (Nat.cast_nonneg x) hnr.le
    have hp1 : (x : ℝ) / (n : ℝ) ≤ 1 := by
      rw [div_le_one hnr]
      exact_mod_cast hxn
    obtain ⟨hb1, hb2⟩ := wilson_value_between z (n : ℝ) ((x : ℝ) / (n : ℝ)) hz hnr hp0 hp1
    rw [if_pos (Nat.pos_of_ne_zero hn), wilson_ci_eq_pair z x n hz hn hxn]
    exact ⟨hp0, hp1, hb1, hb2⟩

/-- C1.  For every count vector with positive total and every
admissible quantile (`z ≥ 0`, which holds for every confidence level in
`[0.5, 0.99]`), each of the five proportion estimates returned by
`calculate_diagnostic_stats` has `0 ≤ value ≤ 1` and
`ci_lower ≤ value ≤ ci_upper`, including the zero-denominator fallback
`(0, (0,0))` and the clamped Wilson bounds. -/
theorem C1_estimates_within_bounds (TP TN FP FN : ℕ) (z : ℝ) (hz : 0 ≤ z)
    (r : DiagStats) (hr : calculate_diagnostic_stats TP TN FP FN z = some r) :
    (0 ≤ r.sensitivity.value ∧ r.sensitivity.value ≤ 1 ∧
      r.sensitivity.ci_lower ≤ r.sensitivity.value ∧
      r.sensitivity.value ≤ r.sensitivity.ci_upper) ∧
    (0 ≤ r.specificity.value ∧ r.specificity.value ≤ 1 ∧
      r.specificity.ci_lower ≤ r.specificity.value ∧
      r.specificity.value ≤ r.specificity.ci_upper) ∧
    (0 ≤ r.ppv.value ∧ r.ppv.value ≤ 1 ∧
      r.ppv.ci_lower ≤ r.ppv.value ∧ r.ppv.value ≤ r.ppv.ci_upper) ∧
    (0 ≤ r.npv.value ∧ r.npv.value ≤ 1 ∧
      r.npv.ci_lower ≤ r.npv.value ∧ r.npv.value ≤ r.npv.ci_upper) ∧
    (0 ≤ r.accuracy.value ∧ r.accuracy.value ≤ 1 ∧
      r.accuracy.ci_lower ≤ r.accuracy.value ∧
      r.accuracy.value ≤ r.accuracy.ci_upper) := by
  have htot : TP + TN + FP + FN ≠ 0 := by
    intro h0
    simp [calculate_diagnostic_stats, h0] at hr
  rw [calc_diag_eq_some TP TN FP FN z htot] at hr
  have hr' := Option.some.inj hr
  subst hr'
  have hsens := diag_component z TP (TP + FN) hz (by omega)
  have hspec := diag_component z TN (TN + FP) hz (by omega)
  have hppv := diag_component z TP (TP + FP) hz (by omega)
  have hnpv := diag_component z TN (TN + FN) hz (by omega)
  have hacc := diag_component z (TP + TN) (TP + TN + FP + FN) hz (by omega)
  rw [if_pos (Nat.pos_of_ne_zero htot)] at hacc
  exact ⟨hsens, hspec, hppv, hnpv, hacc⟩

/-- C2.  The failure branch fires exactly on zero total, and on every
positive total the returned point estimates are the spec's ratios with
the 0-when-denominator-zero fallback. -/
theorem C2_zero_total_and_ratio_formulas (TP TN FP FN : ℕ) (z : ℝ) :
    (calculate_diagnostic_stats TP TN FP FN z = none ↔ TP + TN + FP + FN = 0) ∧
    (∀ r : DiagStats, calculate_diagnostic_stats TP TN FP FN z = some r →
      r.sensitivity.value = (if TP + FN = 0 then 0 else (TP : ℝ) / ((TP + FN : ℕ) : ℝ)) ∧
      r.specificity.value = (if TN + FP = 0 then 0 else (TN : ℝ) / ((TN + FP : ℕ) : ℝ)) ∧
      r.ppv.value = (if TP + FP = 0 then 0 else (TP : ℝ) / ((TP + FP : ℕ) : ℝ)) ∧
      r.npv.value = (if TN + FN = 0 then 0 else (TN : ℝ) / ((TN + FN : ℕ) : ℝ)) ∧
      r.accuracy.value = ((TP + TN : ℕ) : ℝ) / ((TP + TN + FP + FN : ℕ) : ℝ) ∧
      r.prevalence = ((TP + FN : ℕ) : ℝ) / ((TP + TN + FP + FN : ℕ) : ℝ)) := by
  have hswap : ∀ (m : ℕ) (v : ℝ),
      (if 0 < m then v else 0) = (if m = 0 then 0 else v) := by
    intro m v
    by_cases hm : m = 0
    · simp [hm]
    · simp [hm, Nat.pos_of_ne_zero hm]
  constructor
  · by_cases h : TP + TN + FP + FN = 0
    · simp [calculate_diagnostic_stats, h]
    · rw [calc_diag_eq_some TP TN FP FN z h]
      simp [h]
  · intro r hr
    have htot : TP + TN + FP + FN ≠ 0 := by
      intro h0
      simp [calculate_diagnostic_stats, h0] at hr
    rw [calc_diag_eq_some TP TN FP FN z htot] at hr
    have hr' := Option.some.inj hr
    subst hr'
    exact ⟨hswap _ _, hswap _ _, hswap _ _, hswap _ _, rfl, rfl⟩

/-- Concrete result record of `calculate_diagnostic_stats 1 1 0 0` at
`z = 1`; every proportion of this input is `1/1` or `2/2`, so all
interval endpoints are rational. -/
noncomputable def sampleA : DiagStats :=
  ⟨⟨1, 1 / 2, 1⟩, ⟨1, 1 / 2, 1⟩, ⟨1, 1 / 2, 1⟩, ⟨1, 1 / 2, 1⟩, ⟨1, 2 / 3, 1⟩, 1 / 2⟩

/-- Concrete result record of the same counts at `z = 2`. -/
noncomputable def sampleB : DiagStats :=
  ⟨⟨1, 1 / 5, 1⟩, ⟨1, 1 / 5, 1⟩, ⟨1, 1 / 5, 1⟩, ⟨1, 1 / 5, 1⟩, ⟨1, 1 / 3, 1⟩, 1 / 2⟩

lemma sampleA_eq : calculate_diagnostic_stats 1 1 0 0 1 = some sampleA := by
  rw [calc_diag_eq_some 1 1 0 0 1 (by norm_num)]
  have h11 := wilson_ci_at_full 1 1 (by norm_num) (by norm_num)
  have h22 := wilson_ci_at_full 1 2 (by norm_num) (by norm_num)
  norm_num [sampleA, Option.some.injEq, DiagStats.mk.injEq, PropEst.mk.injEq] at h11 h22 ⊢
  norm_num [h11, h22]

lemma sampleB_eq : calculate_diagnostic_stats 1 1 0 0 2 = some sampleB := by
  rw [calc_diag_eq_some 1 1 0 0 2 (by norm_num)]
  have h11 := wilson_ci_at_full 2 1 (by norm_num) (by norm_num)
  have h22 := wilson_ci_at_full 2 2 (by norm_num) (by norm_num)
  norm_num [sampleB, Option.some.injEq, DiagStats.mk.injEq, PropEst.mk.injEq] at h11 h22 ⊢
  norm_num [h11, h22]

/-- Witness for C1 at counts `(1, 1, 0, 0)` and `z = 1`. -/
theorem C1_estimates_within_bounds_witness :
    (0 ≤ sampleA.sensitivity.value ∧ sampleA.sensitivity.value ≤ 1 ∧
      sampleA.sensitivity.ci_lower ≤ sampleA.sensitivity.value ∧
      sampleA.sensitivity.value ≤ sampleA.sensitivity.ci_upper) ∧
    (0 ≤ sampleA.specificity.value ∧ sampleA.specificity.value ≤ 1 ∧
      sampleA.specificity.ci_lower ≤ sampleA.specificity.value ∧
      sampleA.specificity.value ≤ sampleA.specificity.ci_upper) ∧
    (0 ≤ sampleA.ppv.value ∧ sampleA.ppv.value ≤ 1 ∧
      sampleA.ppv.ci_lower ≤ sampleA.ppv.value ∧
      sampleA.ppv.value ≤ sampleA.ppv.ci_upper) ∧
    (0 ≤ sampleA.npv.value ∧ sampleA.npv.value ≤ 1 ∧
      sampleA.npv.ci_lower ≤ sampleA.npv.value ∧
      sampleA.npv.value ≤ sampleA.npv.ci_upper) ∧
    (0 ≤ sampleA.accuracy.value ∧ sampleA.accuracy.value ≤ 1 ∧
      sampleA.accuracy.ci_lower ≤ sampleA.accuracy.value ∧
      sampleA.accuracy.value ≤ sampleA.accuracy.ci_upper) :=
  C1_estimates_within_bounds 1 1 0 0 1 (by norm_num) sampleA sampleA_eq

/-- Witness for C2: the zero-total input fails, and at counts
`(1, 1, 0, 0)` the returned prevalence and accuracy equal their spec
ratios. -/
theorem C2_zero_total_and_ratio_formulas_witness :
    calculate_diagnostic_stats 0 0 0 0 1 = none ∧
    sampleA.accuracy.value = (((1 + 1 : ℕ)) : ℝ) / (((1 + 1 + 0 + 0 : ℕ)) : ℝ) ∧
    sampleA.prevalence = (((1 + 0 : ℕ)) : ℝ) / (((1 + 1 + 0 + 0 : ℕ)) : ℝ) := by
  refine ⟨(C2_zero_total_and_ratio_formulas 0 0 0 0 1).1.mpr rfl, ?_, ?_⟩
  · exact ((C2_zero_total_and_ratio_formulas 1 1 0 0 1).2 sampleA sampleA_eq).2.2.2.2.1
  · exact ((C2_zero_total_and_ratio_formulas 1 1 0 0 1).2 sampleA sampleA_eq).2.2.2.2.2

/-- Wilson score interval exactly as the spec words it (§4.1 step 4):
`(0,0)` at `n = 0`, otherwise `p = x/n`, `denom = 1 + z²/n`,
`centre = (p + z²/(2n))/denom`,
`margin = z·sqrt((p(1-p) + z²/(4n))/n)/denom`,
`lower = max(0, centre - margin)`, `upper = min(1, centre + margin)`. -/
noncomputable def wilsonSpec (z : ℝ) (x n : ℕ) : ℝ × ℝ :=
  if n = 0 then (0, 0)
  else
    let p : ℝ := (x : ℝ) / (n : ℝ)
    let denom : ℝ := 1 + z ^ 2 / (n : ℝ)
    let centre : ℝ := (p + z ^ 2 / (2 * (n : ℝ))) / denom
    let margin : ℝ :=
      z * Real.sqrt ((p * (1 - p) + z ^ 2 / (4 * (n : ℝ))) / (n : ℝ)) / denom
    (max 0 (centre - margin), min 1 (centre + margin))

/-- C3.  The source's `wilson_ci` computes exactly the spec's Wilson
formula for every `(x, n)` pair, and the five interval pairs stored in a
`calculate_diagnostic_stats` result are that formula evaluated at the
spec's `(successes, trials)` pairs. -/
theorem C3_wilson_matches_spec (TP TN FP FN : ℕ) (z : ℝ) (r : DiagStats)
    (hr : calculate_diagnostic_stats TP TN FP FN z = some r) :
    (∀ x n : ℕ, wilson_ci z x n = wilsonSpec z x n) ∧
    (r.sensitivity.ci_lower, r.sensitivity.ci_upper) = wilsonSpec z TP (TP + FN) ∧
    (r.specificity.ci_lower, r.specificity.ci_upper) = wilsonSpec z TN (TN + FP) ∧
    (r.ppv.ci_lower, r.ppv.ci_upper) = wilsonSpec z TP (TP + FP) ∧
    (r.npv.ci_lower, r.npv.ci_upper) = wilsonSpec z TN (TN + FN) ∧
    (r.accuracy.ci_lower, r.accuracy.ci_upper) =
      wilsonSpec z (TP + TN) (TP + TN + FP + FN) := by
  have hws : ∀ x n : ℕ, wilson_ci z x n = wilsonSpec z x n := fun x n => rfl
  have htot : TP + TN + FP + FN ≠ 0 := by
    intro h0
    simp [calculate_diagnostic_stats, h0] at hr
  rw [calc_diag_eq_some TP TN FP FN z htot] at hr
  have hr' := Option.some.inj hr
  subst hr'
  refine ⟨hws, ?_, ?_, ?_, ?_, ?_⟩ <;> rw [← hws]

/-- Witness for C3 at counts `(1, 1, 0, 0)`, `z = 1`, plus a direct
instantiation of the formula equality at `(x, n) = (0, 5)`. -/
theorem C3_wilson_matches_spec_witness :
    wilson_ci 1 0 5 = wilsonSpec 1 0 5 ∧
    (sampleA.sensitivity.ci_lower, sampleA.sensitivity.ci_upper) =
      wilsonSpec 1 1 (1 + 0) := by
  have h := C3_wilson_matches_spec 1 1 0 0 1 sampleA sampleA_eq
  exact ⟨h.1 0 5, h.2.1⟩

/-- C4 counterexample data: the result records of counts
`(TP, TN, FP, FN) = (0, 1, 0, 0)` at `z = 1` and `z = 2`.  The
sensitivity pair has zero trials (`TP + FN = 0`), so its interval is
`(0, 0)` at both quantiles. -/
noncomputable def R1cex : DiagStats :=
  ⟨⟨0, 0, 0⟩, ⟨1, 1 / 2, 1⟩, ⟨0, 0, 0⟩, ⟨1, 1 / 2, 1⟩, ⟨1, 1 / 2, 1⟩, 0⟩

/-- The same counts evaluated at the larger quantile `z = 2`. -/
noncomputable def R2cex : DiagStats :=
  ⟨⟨0, 0, 0⟩, ⟨1, 1 / 5, 1⟩, ⟨0, 0, 0⟩, ⟨1, 1 / 5, 1⟩, ⟨1, 1 / 5, 1⟩, 0⟩

lemma R1cex_eq : calculate_diagnostic_stats 0 1 0 0 1 = some R1cex := by
  rw [calc_diag_eq_some 0 1 0 0 1 (by norm_num)]
  have h11 := wilson_ci_at_full 1 1 (by norm_num) (by norm_num)
  norm_num [Option.some.injEq, DiagStats.mk.injEq, PropEst.mk.injEq] at h11 ⊢
  norm_num [R1cex, h11, wilson_ci_zero_trials]

lemma R2cex_eq : calculate_diagnostic_stats 0 1 0 0 2 = some R2cex := by
  rw [calc_diag_eq_some 0 1 0 0 2 (by norm_num)]
  have h11 := wilson_ci_at_full 2 1 (by norm_num) (by norm_num)
  norm_num [Option.some.injEq, DiagStats.mk.injEq, PropEst.mk.injEq] at h11 ⊢
  norm_num [R2cex, h11, wilson_ci_zero_trials]

/-- C4 as frozen is false: at counts `(0, 1, 0, 0)` (total `1 > 0`) and
quantiles `1 < 2` (confidence levels `c₁ < c₂`), the sensitivity
interval does NOT get strictly wider — its trials count `TP + FN` is
zero, so it stays `(0, 0)` at every confidence level. -/
theorem C4_strict_widening_counterexample :
    calculate_diagnostic_stats 0 1 0 0 1 = some R1cex ∧
    calculate_diagnostic_stats 0 1 0 0 2 = some R2cex ∧
    (0 : ℝ) ≤ 1 ∧ (1 : ℝ) < 2 ∧ 0 < 0 + 1 + 0 + 0 ∧
    ¬(R1cex.sensitivity.ci_upper - R1cex.sensitivity.ci_lower <
        R2cex.sensitivity.ci_upper - R2cex.sensitivity.ci_lower) := by
  refine ⟨R1cex_eq, R2cex_eq, by norm_num, by norm_num, by norm_num, ?_⟩
  norm_num [R1cex, R2cex]

/-- C4 amended.  Raising the quantile (equivalently the confidence
level) strictly widens every one of the five Wilson intervals whose
`(successes, trials)` pair has positive trials; the accuracy interval
(trials = total > 0) always widens strictly. -/
theorem C4_confidence_widens_intervals (TP TN FP FN : ℕ) (z1 z2 : ℝ)
    (hz1 : 0 ≤ z1) (h12 : z1 < z2) (r1 r2 : DiagStats)
    (h1 : calculate_diagnostic_stats TP TN FP FN z1 = some r1)
    (h2 : calculate_diagnostic_stats TP TN FP FN z2 = some r2) :
    (0 < TP + FN →
      r1.sensitivity.ci_upper - r1.sensitivity.ci_lower <
        r2.sensitivity.ci_upper - r2.sensitivity.ci_lower) ∧
    (0 < TN + FP →
      r1.specificity.ci_upper - r1.specificity.ci_lower <
        r2.specificity.ci_upper - r2.specificity.ci_lower) ∧
    (0 < TP + FP →
      r1.ppv.ci_upper - r1.ppv.ci_lower <
        r2.ppv.ci_upper - r2.ppv.ci_lower) ∧
    (0 < TN + FN →
      r1.npv.ci_upper - r1.npv.ci_lower <
        r2.npv.ci_upper - r2.npv.ci_lower) ∧
    (r1.accuracy.ci_upper - r1.accuracy.ci_lower <
      r2.accuracy.ci_upper - r2.accuracy.ci_lower) := by
  have htot : TP + TN + FP + FN ≠ 0 := by
    intro h0
    simp [calculate_diagnostic_stats, h0] at h1
  rw [calc_diag_eq_some TP TN FP FN z1 htot] at h1
  rw [calc_diag_eq_some TP TN FP FN z2 htot] at h2
  have h1' := Option.some.inj h1
  have h2' := Option.some.inj h2
  subst h1'
  subst h2'
  refine ⟨fun h => ?_, fun h => ?_, fun h => ?_, fun h => ?_, ?_⟩
  · exact wilson_width_lt TP (TP + FN) z1 z2 hz1 h12 (Nat.pos_iff_ne_zero.mp h) (by omega)
  · exact wilson_width_lt TN (TN + FP) z1 z2 hz1 h12 (Nat.pos_iff_ne_zero.mp h) (by omega)
  · exact wilson_width_lt TP (TP + FP) z1 z2 hz1 h12 (Nat.pos_iff_ne_zero.mp h) (by omega)
  · exact wilson_width_lt TN (TN + FN) z1 z2 hz1 h12 (Nat.pos_iff_ne_zero.mp h) (by omega)
  · exact wilson_width_lt (TP + TN) (TP + TN + FP + FN) z1 z2 hz1 h12 htot (by omega)

/-- Witness for the amended C4 at counts `(1, 1, 0, 0)` and quantiles
`1 < 2`: the sensitivity and accuracy intervals strictly widen. -/
theorem C4_confidence_widens_intervals_witness :
    sampleA.sensitivity.ci_upper - sampleA.sensitivity.ci_lower <
      sampleB.sensitivity.ci_upper - sampleB.sensitivity.ci_lower ∧
    sampleA.accuracy.ci_upper - sampleA.accuracy.ci_lower <
      sampleB.accuracy.ci_upper - sampleB.accuracy.ci_lower := by
  have h := C4_confidence_widens_intervals 1 1 0 0 1 2 (by norm_num) (by norm_num)
    sampleA sampleB sampleA_eq sampleB_eq
  exact ⟨h.1 (by norm_num), h.2.2.2.2⟩

/-- Observed category labels of the two rating sequences: the union of
labels occurring in either list.  The sklearn contingency table of
`confusion_matrix(y_true, y_pred)` is indexed by exactly this set
(sorted; order is irrelevant to every aggregate below). -/
def labelsOf (y_true y_pred : List ℕ) : Finset ℕ := (y_true ++ y_pred).toFinset

/-- Entry `(a, b)` of the contingency table: the number of positions
rated `a` by the first rater and `b` by the second. -/
def cell (y_true y_pred : List ℕ) (a b : ℕ) : ℕ := (y_true.zip y_pred).count (a, b)

/-- Diagonal sum `np.trace(conf_matrix)` (server.py line 120). -/
def traceT (y_true y_pred : List ℕ) : ℕ :=
  ∑ a ∈ labelsOf y_true y_pred, cell y_true y_pred a a

/-- Row sum of the contingency table (`np.sum(conf_matrix, axis=1)`,
server.py line 123). -/
def rowSum (y_true y_pred : List ℕ) (a : ℕ) : ℕ :=
  ∑ b ∈ labelsOf y_true y_pred, cell y_true y_pred a b

/-- Column sum of the contingency table (`np.sum(conf_matrix, axis=0)`,
server.py line 124). -/
def colSum (y_true y_pred : List ℕ) (b : ℕ) : ℕ :=
  ∑ a ∈ labelsOf y_true y_pred, cell y_true y_pred a b

/-- Observed agreement `po = np.trace(conf_matrix) / n` (server.py
line 120). -/
def po (y_true y_pred : List ℕ) : ℚ :=
  (traceT y_true y_pred : ℚ) / (y_true.length : ℚ)

/-- Expected agreement `pe = np.sum(marginal_row * marginal_col)`
(server.py lines 123-125). -/
def pe (y_true y_pred : List ℕ) : ℚ :=
  ∑ a ∈ labelsOf y_true y_pred,
    ((rowSum y_true y_pred a : ℚ) / (y_true.length : ℚ)) *
      ((colSum y_true y_pred a : ℚ) / (y_true.length : ℚ))

/-- Modelled from the spec: scikit-learn's `cohen_kappa_score`
(server.py line 113 calls it; the library body is not under `src/`).
With default unweighted `weights`, the library computes
`1 - sum(w_mat*confusion)/sum(w_mat*expected)` where `w_mat` is zero on
the diagonal and one off it, and `expected = outer(colSums, rowSums)/n`
— i.e. one minus observed disagreement over expected disagreement. -/
def cohen_kappa_score (y_true y_pred : List ℕ) : ℚ :=
  let nQ : ℚ := (y_true.length : ℚ)
  let sumWconf : ℚ :=
    ∑ a ∈ labelsOf y_true y_pred, ∑ b ∈ labelsOf y_true y_pred,
      if a = b then 0 else (cell y_true y_pred a b : ℚ)
  let sumWexp : ℚ :=
    ∑ a ∈ labelsOf y_true y_pred, ∑ b ∈ labelsOf y_true y_pred,
      if a = b then 0
      else (colSum y_true y_pred a : ℚ) * (rowSum y_true y_pred b : ℚ) / nQ
  1 - sumWconf / sumWexp

/-- Interpretation banding of server.py lines 137-149, transcribed
branch by branch. -/
def interpret (kappa : ℚ) : String :=
  if kappa < 0 then "Poor agreement (worse than chance)"
  else if kappa < 0.20 then "Slight agreement"
  else if kappa < 0.40 then "Fair agreement"
  else if kappa < 0.60 then "Moderate agreement"
  else if kappa < 0.80 then "Substantial agreement"
  else "Almost perfect agreement"

/-- Failure mode of `calculate_cohens_kappa`: the explicit
`ValueError("Arrays must have the same length")` of server.py line 110.
It is the function's only raise — every downstream division by zero is
NumPy float arithmetic, which warns and propagates instead of
raising. -/
inductive KappaError where
  | lengthMismatch
  deriving DecidableEq

/-- The result dict of `calculate_cohens_kappa` (server.py lines
151-159).  The exact contingency aggregates are rationals; the interval
endpoints involve `sqrt` and are real. -/
structure KappaResult where
  kappa : ℚ
  ci_lower : ℝ
  ci_upper : ℝ
  interpretation : String
  observed_agreement : ℚ
  expected_agreement : ℚ
  sample_size : ℕ

/-- The function `calculate_cohens_kappa(y_true, y_pred,
confidence_level)` of server.py lines 106-159, with the scipy quantile
as the parameter `z`.  Only the length check can fail; every other
input takes the ordinary path.  On empty input the library chain does
not raise either (sklearn's type-of-target treats a 1-D empty array as
binary, `confusion_matrix` returns a 0×0 matrix, and every division by
the zero `n` is NumPy float arithmetic that warns and propagates NaN),
so an ordinary record is returned; likewise `pe = 1` flows through the
zero denominator of the standard error.  At those degenerate inputs the
exact-arithmetic model assigns the `x/0 = 0` convention where the
source's floats carry NaN. -/
noncomputable def calculate_cohens_kappa (z : ℝ) (y_true y_pred : List ℕ) :
    Except KappaError KappaResult :=
  if y_true.length ≠ y_pred.length then .error .lengthMismatch
  else
    let kappa : ℚ := cohen_kappa_score y_true y_pred
    let n : ℕ := y_true.length
    let poV : ℚ := po y_true y_pred
    let peV : ℚ := pe y_true y_pred
    let se : ℝ :=
      Real.sqrt ((poV : ℝ) * (1 - (poV : ℝ)) / ((n : ℝ) * (1 - (peV : ℝ)) ^ 2))
    .ok
      { kappa := kappa
        ci_lower := (kappa : ℝ) - z * se
        ci_upper := (kappa : ℝ) + z * se
        interpretation := interpret kappa
        observed_agreement := poV
        expected_agreement := peV
        sample_size := n }

/-- Counting a list of pairs cell by cell over any label set containing
all its entries recovers the list length. -/
lemma count_sum_eq (l : List (ℕ × ℕ)) (A : Finset ℕ)
    (h : ∀ p ∈ l, p.1 ∈ A ∧ p.2 ∈ A) :
    ∑ x ∈ A ×ˢ A, l.count x = l.length := by
  induction l with
  | nil => simp
  | cons q t ih =>
    have hq := h q (List.mem_cons_self q t)
    have ht : ∀ p ∈ t, p.1 ∈ A ∧ p.2 ∈ A := fun p hp => h p (List.mem_cons_of_mem q hp)
    have hmem : q ∈ A ×ˢ A := Finset.mem_product.mpr hq
    simp only [List.count_cons, Finset.sum_add_distrib, List.length_cons]
    rw [ih ht]
    congr 1
    simp only [beq_iff_eq]
    rw [Finset.sum_ite_eq (A ×ˢ A) q fun _ => (1 : ℕ), if_pos hmem]

/-- The contingency table built over the observed labels accounts for
every rated position: its total is `n`. -/
lemma sum_cell_eq_length (y_true y_pred : List ℕ) (hlen : y_true.length = y_pred.length) :
    ∑ a ∈ labelsOf y_true y_pred, ∑ b ∈ labelsOf y_true y_pred, cell y_true y_pred a b =
      y_true.length := by
  have h : ∀ p ∈ y_true.zip y_pred,
      p.1 ∈ labelsOf y_true y_pred ∧ p.2 ∈ labelsOf y_true y_pred := by
    rintro ⟨a, b⟩ hp
    obtain ⟨h1, h2⟩ := List.of_mem_zip hp
    constructor
    · exact List.mem_toFinset.mpr (List.mem_append.mpr (Or.inl h1))
    · exact List.mem_toFinset.mpr (List.mem_append.mpr (Or.inr h2))
  have hc := count_sum_eq (y_true.zip y_pred) (labelsOf y_true y_pred) h
  rw [← Finset.sum_product']
  calc ∑ x ∈ labelsOf y_true y_pred ×ˢ labelsOf y_true y_pred, cell y_true y_pred x.1 x.2
      = ∑ x ∈ labelsOf y_true y_pred ×ˢ labelsOf y_true y_pred, (y_true.zip y_pred).count x := by
        exact Finset.sum_congr rfl fun x _ => rfl
    _ = (y_true.zip y_pred).length := hc
    _ = y_true.length := by rw [List.length_zip, hlen, Nat.min_self]

/-- Row marginals sum to `n`. -/
lemma sum_rowSum (y_true y_pred : List ℕ) (hlen : y_true.length = y_pred.length) :
    ∑ a ∈ labelsOf y_true y_pred, rowSum y_true y_pred a = y_true.length :=
  sum_cell_eq_length y_true y_pred hlen

/-- Column marginals sum to `n`. -/
lemma sum_colSum (y_true y_pred : List ℕ) (hlen : y_true.length = y_pred.length) :
    ∑ b ∈ labelsOf y_true y_pred, colSum y_true y_pred b = y_true.length := by
  have hsw : ∑ b ∈ labelsOf y_true y_pred, ∑ a ∈ labelsOf y_true y_pred,
      cell y_true y_pred a b =
      ∑ a ∈ labelsOf y_true y_pred, ∑ b ∈ labelsOf y_true y_pred,
        cell y_true y_pred a b := Finset.sum_comm
  exact hsw.trans (sum_cell_eq_length y_true y_pred hlen)

/-- Removing the diagonal of a doubly indexed sum subtracts the trace. -/
lemma sum_offdiag (L : Finset ℕ) (f : ℕ → ℕ → ℚ) :
    ∑ a ∈ L, ∑ b ∈ L, (if a = b then 0 else f a b) =
      (∑ a ∈ L, ∑ b ∈ L, f a b) - ∑ a ∈ L, f a a := by
  have hrow : ∀ a ∈ L, ∑ b ∈ L, (if a = b then 0 else f a b) =
      (∑ b ∈ L, f a b) - f a a := by
    intro a ha
    have h1 : ∑ b ∈ L, (if a = b then 0 else f a b) =
        ∑ b ∈ L, (f a b - if a = b then f a b else 0) := by
      refine Finset.sum_congr rfl fun b _ => ?_
      by_cases hab : a = b <;> simp [hab]
    rw [h1, Finset.sum_sub_distrib, Finset.sum_ite_eq L a fun b => f a b, if_pos ha]
  rw [Finset.sum_congr rfl hrow, Finset.sum_sub_distrib]

/-- The scikit-learn computation `1 - sum(w*confusion)/sum(w*expected)`
agrees with the spec's contingency-table formula
`(po - pe)/(1 - pe)` whenever `pe < 1` and the input is nonempty. -/
lemma cohen_kappa_eq_formula (y_true y_pred : List ℕ)
    (hlen : y_true.length = y_pred.length) (hne : y_true.length ≠ 0)
    (hpe : pe y_true y_pred < 1) :
    cohen_kappa_score y_true y_pred =
      (po y_true y_pred - pe y_true y_pred) / (1 - pe y_true y_pred) := by
  have hn0 : ((y_true.length : ℚ)) ≠ 0 := Nat.cast_ne_zero.mpr hne
  have hsumcell : ∑ a ∈ labelsOf y_true y_pred, ∑ b ∈ labelsOf y_true y_pred,
      (cell y_true y_pred a b : ℚ) = (y_true.length : ℚ) := by
    exact_mod_cast sum_cell_eq_length y_true y_pred hlen
  have hrowQ : ∑ a ∈ labelsOf y_true y_pred, (rowSum y_true y_pred a : ℚ) =
      (y_true.length : ℚ) := by
    exact_mod_cast sum_rowSum y_true y_pred hlen
  have hcolQ : ∑ a ∈ labelsOf y_true y_pred, (colSum y_true y_pred a : ℚ) =
      (y_true.length : ℚ) := by
    exact_mod_cast sum_colSum y_true y_pred hlen
  have hWconf : (∑ a ∈ labelsOf y_true y_pred, ∑ b ∈ labelsOf y_true y_pred,
      if a = b then 0 else (cell y_true y_pred a b : ℚ)) =
      (y_true.length : ℚ) - (traceT y_true y_pred : ℚ) := by
    rw [sum_offdiag, hsumcell]
    congr 1
    exact_mod_cast rfl
  have hWexp : (∑ a ∈ labelsOf y_true y_pred, ∑ b ∈ labelsOf y_true y_pred,
      if a = b then 0
      else (colSum y_true y_pred a : ℚ) * (rowSum y_true y_pred b : ℚ) /
        (y_true.length : ℚ)) =
      (y_true.length : ℚ) * (1 - pe y_true y_pred) := by
    rw [sum_offdiag]
    have h1 : ∑ a ∈ labelsOf y_true y_pred, ∑ b ∈ labelsOf y_true y_pred,
        (colSum y_true y_pred a : ℚ) * (rowSum y_true y_pred b : ℚ) /
          (y_true.length : ℚ) = (y_true.length : ℚ) := by
      have hinner : ∀ a ∈ labelsOf y_true y_pred,
          ∑ b ∈ labelsOf y_true y_pred,
            (colSum y_true y_pred a : ℚ) * (rowSum y_true y_pred b : ℚ) /
              (y_true.length : ℚ) = (colSum y_true y_pred a : ℚ) := by
        intro a _
        rw [← Finset.sum_div, ← Finset.mul_sum, hrowQ, mul_div_assoc, div_self hn0, mul_one]
      rw [Finset.sum_congr rfl hinner, hcolQ]
    have h2 : ∑ a ∈ labelsOf y_true y_pred,
        (colSum y_true y_pred a : ℚ) * (rowSum y_true y_pred a : ℚ) /
          (y_true.length : ℚ) = (y_true.length : ℚ) * pe y_true y_pred := by
      rw [pe, Finset.mul_sum]
      refine Finset.sum_congr rfl fun a _ => ?_
      field_simp
      ring
    rw [h1, h2]
    ring
  have hpodef : (traceT y_true y_pred : ℚ) = po y_true y_pred * (y_true.length : ℚ) := by
    rw [po]
    field_simp
  have hpe0 : (1 : ℚ) - pe y_true y_pred ≠ 0 := ne_of_gt (by linarith)
  simp only [cohen_kappa_score]
  rw [hWconf, hWexp, hpodef]
  field_simp
  ring

lemma po_01 : po [0, 1] [0, 0] = 1 / 2 := by
  rw [po, show traceT [0, 1] [0, 0] = 1 from by decide]
  norm_num

lemma pe_01 : pe [0, 1] [0, 0] = 1 / 2 := by
  rw [pe, show labelsOf [0, 1] [0, 0] = {0, 1} from by decide,
    show ({0, 1} : Finset ℕ) = insert 0 {1} from rfl,
    Finset.sum_insert (by decide), Finset.sum_singleton,
    show rowSum [0, 1] [0, 0] 0 = 1 from by decide,
    show rowSum [0, 1] [0, 0] 1 = 1 from by decide,
    show colSum [0, 1] [0, 0] 0 = 2 from by decide,
    show colSum [0, 1] [0, 0] 1 = 0 from by decide]
  norm_num

lemma pe_00 : pe [0, 0] [0, 0] = 1 := by
  rw [pe, show labelsOf [0, 0] [0, 0] = {0} from by decide, Finset.sum_singleton,
    show rowSum [0, 0] [0, 0] 0 = 2 from by decide,
    show colSum [0, 0] [0, 0] 0 = 2 from by decide]
  norm_num

lemma kappa_01 : cohen_kappa_score [0, 1] [0, 0] = 0 := by
  rw [cohen_kappa_eq_formula [0, 1] [0, 0] rfl (by decide) (by rw [pe_01]; norm_num),
    po_01, pe_01]
  norm_num

/-- Explicit form of the success branch of `calculate_cohens_kappa`:
any equal-length input (empty included) produces this record. -/
lemma calc_kappa_ok_eq (z : ℝ) (y_true y_pred : List ℕ)
    (hlen : y_true.length = y_pred.length) :
    calculate_cohens_kappa z y_true y_pred = Except.ok
      { kappa := cohen_kappa_score y_true y_pred
        ci_lower := ((cohen_kappa_score y_true y_pred : ℚ) : ℝ) -
          z * Real.sqrt ((po y_true y_pred : ℝ) * (1 - (po y_true y_pred : ℝ)) /
            ((y_true.length : ℝ) * (1 - (pe y_true y_pred : ℝ)) ^ 2))
        ci_upper := ((cohen_kappa_score y_true y_pred : ℚ) : ℝ) +
          z * Real.sqrt ((po y_true y_pred : ℝ) * (1 - (po y_true y_pred : ℝ)) /
            ((y_true.length : ℝ) * (1 - (pe y_true y_pred : ℝ)) ^ 2))
        interpretation := interpret (cohen_kappa_score y_true y_pred)
        observed_agreement := po y_true y_pred
        expected_agreement := pe y_true y_pred
        sample_size := y_true.length } := by
  unfold calculate_cohens_kappa
  rw [if_neg (not_not.mpr hlen)]

/-- Inversion of a successful `calculate_cohens_kappa` call: it implies
the length check passed and pins down the result record. -/
lemma calc_kappa_ok_inv (z : ℝ) (y_true y_pred : List ℕ) (res : KappaResult)
    (h : calculate_cohens_kappa z y_true y_pred = Except.ok res) :
    y_true.length = y_pred.length ∧
    res =
      { kappa := cohen_kappa_score y_true y_pred
        ci_lower := ((cohen_kappa_score y_true y_pred : ℚ) : ℝ) -
          z * Real.sqrt ((po y_true y_pred : ℝ) * (1 - (po y_true y_pred : ℝ)) /
            ((y_true.length : ℝ) * (1 - (pe y_true y_pred : ℝ)) ^ 2))
        ci_upper := ((cohen_kappa_score y_true y_pred : ℚ) : ℝ) +
          z * Real.sqrt ((po y_true y_pred : ℝ) * (1 - (po y_true y_pred : ℝ)) /
            ((y_true.length : ℝ) * (1 - (pe y_true y_pred : ℝ)) ^ 2))
        interpretation := interpret (cohen_kappa_score y_true y_pred)
        observed_agreement := po y_true y_pred
        expected_agreement := pe y_true y_pred
        sample_size := y_true.length } := by
  unfold calculate_cohens_kappa at h
  split_ifs at h with h1
  exact ⟨not_not.mp h1, (Except.ok.inj h).symm⟩

/-- Concrete kappa result: `calculate_cohens_kappa` at `z = 0` on the
ratings `[0, 1]` versus `[0, 0]` (kappa `0`, agreement `1/2`). -/
noncomputable def K0 : KappaResult :=
  ⟨0, 0, 0, "Slight agreement", 1 / 2, 1 / 2, 2⟩

lemma K0_eq : calculate_cohens_kappa 0 [0, 1] [0, 0] = Except.ok K0 := by
  rw [calc_kappa_ok_eq 0 [0, 1] [0, 0] rfl]
  have hint : interpret 0 = "Slight agreement" := by
    rw [interpret, if_neg (by norm_num), if_pos (by norm_num)]
  simp [K0, KappaResult.mk.injEq, kappa_01, po_01, pe_01, hint]

/-- C5.  On every nonempty pair of equal-length ratings with `pe < 1`,
the kappa returned by `calculate_cohens_kappa` — computed by the
scikit-learn disagreement-ratio algorithm — equals the spec's
contingency-table formula `(po - pe)/(1 - pe)`, and the returned
agreement fields are exactly `po` and `pe`. -/
theorem C5_kappa_matches_contingency_formula (y_true y_pred : List ℕ) (z : ℝ)
    (hne : y_true ≠ [])
    (res : KappaResult) (hres : calculate_cohens_kappa z y_true y_pred = Except.ok res)
    (hpe : pe y_true y_pred < 1) :
    res.kappa = (po y_true y_pred - pe y_true y_pred) / (1 - pe y_true y_pred) ∧
    res.observed_agreement = po y_true y_pred ∧
    res.expected_agreement = pe y_true y_pred := by
  obtain ⟨hlen, rfl⟩ := calc_kappa_ok_inv z y_true y_pred res hres
  have hne0 : y_true.length ≠ 0 := fun h0 => hne (List.length_eq_zero.mp h0)
  exact ⟨cohen_kappa_eq_formula y_true y_pred hlen hne0 hpe, rfl, rfl⟩

/-- Witness for C5 at ratings `[0, 1]` versus `[0, 0]`, `z = 0`. -/
theorem C5_kappa_matches_contingency_formula_witness :
    K0.kappa = (po [0, 1] [0, 0] - pe [0, 1] [0, 0]) / (1 - pe [0, 1] [0, 0]) ∧
    K0.observed_agreement = po [0, 1] [0, 0] ∧
    K0.expected_agreement = pe [0, 1] [0, 0] :=
  C5_kappa_matches_contingency_formula [0, 1] [0, 0] 0 (by decide) K0 K0_eq
    (by rw [pe_01]; norm_num)

/-- C6.  The interval returned by `calculate_cohens_kappa` is
`kappa ∓ z·se` with `se = sqrt(po(1-po)/(n(1-pe)²))`, and it is not
clamped to kappa's theoretical range `[-1, 1]`: at ratings `[0, 1]`
versus `[0, 0]` and `z = 2` (the quantile of confidence level
`≈ 0.9545`, inside `[0.5, 0.99]`) the returned upper bound exceeds `1`. -/
theorem C6_ci_formula_and_unclamped (y_true y_pred : List ℕ) (z : ℝ)
    (res : KappaResult) (hres : calculate_cohens_kappa z y_true y_pred = Except.ok res) :
    (res.ci_lower = (res.kappa : ℝ) -
        z * Real.sqrt ((po y_true y_pred : ℝ) * (1 - (po y_true y_pred : ℝ)) /
          ((y_true.length : ℝ) * (1 - (pe y_true y_pred : ℝ)) ^ 2)) ∧
      res.ci_upper = (res.kappa : ℝ) +
        z * Real.sqrt ((po y_true y_pred : ℝ) * (1 - (po y_true y_pred : ℝ)) /
          ((y_true.length : ℝ) * (1 - (pe y_true y_pred : ℝ)) ^ 2))) ∧
    (∃ res2, calculate_cohens_kappa 2 [0, 1] [0, 0] = Except.ok res2 ∧
      1 < res2.ci_upper) := by
  obtain ⟨hlen, rfl⟩ := calc_kappa_ok_inv z y_true y_pred res hres
  refine ⟨⟨rfl, rfl⟩, ?_⟩
  refine ⟨_, calc_kappa_ok_eq 2 [0, 1] [0, 0] rfl, ?_⟩
  have harg : (po [0, 1] [0, 0] : ℝ) * (1 - (po [0, 1] [0, 0] : ℝ)) /
      (((([0, 1] : List ℕ).length : ℕ) : ℝ) * (1 - (pe [0, 1] [0, 0] : ℝ)) ^ 2) =
      1 / 2 := by
    rw [po_01, pe_01]
    norm_num
  have hhalf : (1 / 2 : ℝ) < Real.sqrt (1 / 2) := by
    have h4 : Real.sqrt ((1 / 2 : ℝ) ^ 2) < Real.sqrt (1 / 2) := by
      apply Real.sqrt_lt_sqrt (by positivity)
      norm_num
    rwa [Real.sqrt_sq (by norm_num)] at h4
  have hk : ((cohen_kappa_score [0, 1] [0, 0] : ℚ) : ℝ) = 0 := by
    rw [kappa_01]
    norm_num
  simp only [harg, hk]
  linarith [hhalf]

/-- Witness for the C6 formula part at `z = 0`. -/
theorem C6_ci_formula_and_unclamped_witness :
    (K0.ci_lower = (K0.kappa : ℝ) -
        0 * Real.sqrt ((po [0, 1] [0, 0] : ℝ) * (1 - (po [0, 1] [0, 0] : ℝ)) /
          ((([0, 1] : List ℕ).length : ℝ) * (1 - (pe [0, 1] [0, 0] : ℝ)) ^ 2)) ∧
      K0.ci_upper = (K0.kappa : ℝ) +
        0 * Real.sqrt ((po [0, 1] [0, 0] : ℝ) * (1 - (po [0, 1] [0, 0] : ℝ)) /
          ((([0, 1] : List ℕ).length : ℝ) * (1 - (pe [0, 1] [0, 0] : ℝ)) ^ 2))) ∧
    (∃ res2, calculate_cohens_kappa 2 [0, 1] [0, 0] = Except.ok res2 ∧
      1 < res2.ci_upper) :=
  C6_ci_formula_and_unclamped [0, 1] [0, 0] 0 K0 K0_eq

/-- C7 as frozen is false: at the single-category input
`[0, 0]` versus `[0, 0]` the expected agreement is `1`, yet
`calculate_cohens_kappa` neither raises a `DegenerateAgreementError`
nor any other error, and defines no sentinel — it returns an ordinary
result whose standard-error denominator `n·(1-pe)²` is `0` (NumPy float
semantics silently propagate the resulting NaN). -/
theorem C7_pe_one_counterexample :
    pe [0, 0] [0, 0] = 1 ∧
    (∃ res, calculate_cohens_kappa 2 [0, 0] [0, 0] = Except.ok res ∧
      ((([0, 0] : List ℕ).length : ℝ) * (1 - (pe [0, 0] [0, 0] : ℝ)) ^ 2 = 0)) := by
  refine ⟨pe_00, _, calc_kappa_ok_eq 2 [0, 0] [0, 0] rfl, ?_⟩
  rw [pe_00]
  norm_num

/-- C7 amended.  On every equal-length nonempty input with `pe = 1`,
`calculate_cohens_kappa` does not fail: the length check passes and an
ordinary result is returned, whose expected-agreement field is `1` and
whose standard-error denominator `n·(1-pe)²` is zero — a division by
zero that the source's float arithmetic propagates as NaN instead of
raising or producing a documented sentinel. -/
theorem C7_pe_one_returns_without_error (y_true y_pred : List ℕ) (z : ℝ)
    (hlen : y_true.length = y_pred.length) (hne : y_true.length ≠ 0)
    (hpe : pe y_true y_pred = 1) :
    ∃ res, calculate_cohens_kappa z y_true y_pred = Except.ok res ∧
      res.expected_agreement = 1 ∧
      (y_true.length : ℝ) * (1 - (pe y_true y_pred : ℝ)) ^ 2 = 0 := by
  refine ⟨_, calc_kappa_ok_eq z y_true y_pred hlen, hpe, ?_⟩
  rw [hpe]
  norm_num

/-- Witness for the amended C7 at `[0, 0]` versus `[0, 0]`, `z = 1`. -/
theorem C7_pe_one_returns_without_error_witness :
    ∃ res, calculate_cohens_kappa 1 [0, 0] [0, 0] = Except.ok res ∧
      res.expected_agreement = 1 ∧
      ((([0, 0] : List ℕ).length : ℝ) * (1 - (pe [0, 0] [0, 0] : ℝ)) ^ 2 = 0) :=
  C7_pe_one_returns_without_error [0, 0] [0, 0] 1 rfl (by decide) pe_00

/-- C8.  The returned interpretation is a function of the kappa value
through the fixed lower-inclusive bands of server.py lines 137-149,
applied in ascending order with first match winning; in particular
`0.85`, `0.5` and `-0.1` map to the three strings the spec names. -/
theorem C8_interpretation_bands (z : ℝ) (y_true y_pred : List ℕ)
    (res : KappaResult)
    (hres : calculate_cohens_kappa z y_true y_pred = Except.ok res) :
    res.interpretation = interpret res.kappa ∧
    (∀ k : ℚ,
      (k < 0 → interpret k = "Poor agreement (worse than chance)") ∧
      (0 ≤ k → k < 0.20 → interpret k = "Slight agreement") ∧
      (0.20 ≤ k → k < 0.40 → interpret k = "Fair agreement") ∧
      (0.40 ≤ k → k < 0.60 → interpret k = "Moderate agreement") ∧
      (0.60 ≤ k → k < 0.80 → interpret k = "Substantial agreement") ∧
      (0.80 ≤ k → interpret k = "Almost perfect agreement")) ∧
    interpret 0.85 = "Almost perfect agreement" ∧
    interpret 0.5 = "Moderate agreement" ∧
    interpret (-0.1) = "Poor agreement (worse than chance)" := by
  obtain ⟨hlen, rfl⟩ := calc_kappa_ok_inv z y_true y_pred res hres
  refine ⟨rfl, ?_, ?_, ?_, ?_⟩
  · intro k
    refine ⟨fun h => ?_, fun h1 h2 => ?_, fun h1 h2 => ?_, fun h1 h2 => ?_,
      fun h1 h2 => ?_, fun h1 => ?_⟩
    · rw [interpret, if_pos h]
    · rw [interpret, if_neg (not_lt.mpr h1), if_pos h2]
    · rw [interpret, if_neg (by linarith), if_neg (not_lt.mpr h1), if_pos h2]
    · rw [interpret, if_neg (by linarith), if_neg (by linarith),
        if_neg (not_lt.mpr h1), if_pos h2]
    · rw [interpret, if_neg (by linarith), if_neg (by linarith),
        if_neg (by linarith), if_neg (not_lt.mpr h1), if_pos h2]
    · rw [interpret, if_neg (by linarith), if_neg (by linarith),
        if_neg (by linarith), if_neg (by linarith), if_neg (not_lt.mpr (by linarith))]
  · rw [interpret, if_neg (by norm_num), if_neg (by norm_num), if_neg (by norm_num),
      if_neg (by norm_num), if_neg (by norm_num)]
  · rw [interpret, if_neg (by norm_num), if_neg (by norm_num), if_neg (by norm_num),
      if_pos (by norm_num)]
  · rw [interpret, if_pos (by norm_num)]

/-- Witness for C8 at ratings `[0, 1]` versus `[0, 0]`, `z = 0`
(kappa `0`, the Slight band). -/
theorem C8_interpretation_bands_witness :
    K0.interpretation = interpret K0.kappa ∧
    interpret 0 = "Slight agreement" ∧
    interpret 0.85 = "Almost perfect agreement" := by
  have h := C8_interpretation_bands 0 [0, 1] [0, 0] K0 K0_eq
  exact ⟨h.1, (h.2.1 0).2.1 (by norm_num) (by norm_num), h.2.2.1⟩

/-- C9.  Rating sequences of unequal length fail with the length
mismatch error of server.py lines 109-110, before any computation: no
result record is produced. -/
theorem C9_length_mismatch_error (z : ℝ) (y_true y_pred : List ℕ)
    (h : y_true.length ≠ y_pred.length) :
    calculate_cohens_kappa z y_true y_pred = Except.error KappaError.lengthMismatch := by
  unfold calculate_cohens_kappa
  rw [if_pos h]

/-- Witness for C9: the spec's Scenario C lengths (3 versus 2). -/
theorem C9_length_mismatch_error_witness :
    calculate_cohens_kappa 1 [1, 2, 3] [1, 2] = Except.error KappaError.lengthMismatch :=
  C9_length_mismatch_error 1 [1, 2, 3] [1, 2] (by decide)

/-- C10 as frozen is false: at the pair of empty sequences the length
check passes and `calculate_cohens_kappa` does not fail — the library
chain raises nothing (sklearn classifies the 1-D empty array as binary
and builds a 0×0 table; the `trace/n` and standard-error divisions by
`n = 0` are NumPy float operations that warn and propagate NaN), so an
ordinary result with `sample_size = 0` comes back. -/
theorem C10_empty_input_counterexample :
    ∃ res, calculate_cohens_kappa 1 ([] : List ℕ) ([] : List ℕ) = Except.ok res ∧
      res.sample_size = 0 :=
  ⟨_, calc_kappa_ok_eq 1 [] [] rfl, rfl⟩

/-- C10 amended.  For the pair of empty sequences — accepted by the
public interface but excluded by the spec's RatingPair invariant — the
length-mismatch check passes and `calculate_cohens_kappa` returns an
`AgreementResult` with `sample_size = 0` instead of failing: its
observed agreement is `trace(table)/n` with the zero `n` as denominator,
which the source's NumPy float arithmetic propagates as NaN (with a
RuntimeWarning only), never as a raised error. -/
theorem C10_empty_input_returns (z : ℝ) :
    ∃ res, calculate_cohens_kappa z ([] : List ℕ) ([] : List ℕ) = Except.ok res ∧
      res.sample_size = 0 ∧
      res.observed_agreement =
        (traceT ([] : List ℕ) ([] : List ℕ) : ℚ) / ((([] : List ℕ).length : ℕ) : ℚ) ∧
      ((([] : List ℕ).length : ℕ) : ℚ) = 0 :=
  ⟨_, calc_kappa_ok_eq z [] [] rfl, rfl, rfl, rfl⟩

end Backend
